import Mathlib

set_option autoImplicit false

/-!
Shallow embedding of the `django-testing-utils` library
(`django_testing_utils/mixins.py` and `django_testing_utils/utils.py`).

Python objects are modelled as values of `MObj` stored in a `Heap` addressed
by natural numbers, so that object identity (the address) and structural
equality (the stored value) can be told apart — the distinction the library's
deep-copy / snapshot machinery is all about.  An object's whole reachable
in-memory state is modelled as its `MObj` value, so a mutation of the object
or of any of its nested fields is a `Heap.write` at its address, and Python's
`deepcopy` is an allocation of an equal value at a fresh address.

The Django ORM backing database is modelled as `Store`, the opaque
key-addressed object store of the specification (insert / update / get).
-/

namespace DjangoTestingUtils

universe u v

/-- Association-list lookup (first binding wins), modelling Python dict access. -/
def alookup {κ : Type u} {α : Type v} [DecidableEq κ] : List (κ × α) → κ → Option α
  | [], _ => none
  | p :: rest, k => if p.1 = k then some p.2 else alookup rest k

/-- Association-list assignment modelling Python dict item assignment:
replace the binding in place if the key is present, else append
(Python dicts keep insertion order). -/
def aset {κ : Type u} {α : Type v} [DecidableEq κ] :
    List (κ × α) → κ → α → List (κ × α)
  | [], k, v => [(k, v)]
  | p :: rest, k, v => if p.1 = k then (k, v) :: rest else p :: aset rest k v

/-- Association-list deletion modelling Python `del d[k]`. -/
def adel {κ : Type u} {α : Type v} [DecidableEq κ] : List (κ × α) → κ → List (κ × α)
  | [], _ => []
  | p :: rest, k => if p.1 = k then rest else p :: adel rest k

/-- Iterated assignment, modelling Python `d.update(new)`. -/
def asetAll {κ : Type u} {α : Type v} [DecidableEq κ] :
    List (κ × α) → List (κ × α) → List (κ × α)
  | d, [] => d
  | d, p :: rest => asetAll (aset d p.1 p.2) rest

theorem alookup_aset_self {κ : Type u} {α : Type v} [DecidableEq κ]
    (l : List (κ × α)) (k : κ) (v : α) : alookup (aset l k v) k = some v := by
  induction l with
  | nil => simp [aset, alookup]
  | cons p rest ih =>
      by_cases h : p.1 = k
      · simp [aset, h, alookup]
      · simp [aset, h, alookup, ih]

theorem alookup_aset_ne {κ : Type u} {α : Type v} [DecidableEq κ]
    (l : List (κ × α)) (k k' : κ) (v : α) (h : k' ≠ k) :
    alookup (aset l k v) k' = alookup l k' := by
  induction l with
  | nil => simp [aset, alookup, Ne.symm h]
  | cons p rest ih =>
      by_cases hpk : p.1 = k
      · simp [aset, hpk, alookup, Ne.symm h]
      · by_cases hpk' : p.1 = k'
        · simp [aset, hpk, alookup, hpk', h]
        · simp [aset, hpk, alookup, hpk', ih]

theorem aset_eq_self {κ : Type u} {α : Type v} [DecidableEq κ]
    (l : List (κ × α)) (k : κ) (v : α) (h : alookup l k = some v) :
    aset l k v = l := by
  induction l with
  | nil => simp [alookup] at h
  | cons p rest ih =>
      by_cases hpk : p.1 = k
      · simp [alookup, hpk] at h
        subst hpk
        simp [aset, ← h]
      · simp [alookup, hpk] at h
        simp [aset, hpk, ih h]

theorem alookup_mem {κ : Type u} {α : Type v} [DecidableEq κ]
    (l : List (κ × α)) (k : κ) (v : α) (h : alookup l k = some v) : (k, v) ∈ l := by
  induction l with
  | nil => simp [alookup] at h
  | cons p rest ih =>
      by_cases hpk : p.1 = k
      · simp [alookup, hpk] at h
        subst hpk
        subst h
        simp
      · simp [alookup, hpk] at h
        exact List.mem_cons_of_mem _ (ih h)

theorem alookup_of_nodup_mem {κ : Type u} {α : Type v} [DecidableEq κ]
    (l : List (κ × α)) (k : κ) (v : α)
    (hnd : (l.map Prod.fst).Nodup) (h : (k, v) ∈ l) : alookup l k = some v := by
  induction l with
  | nil => simp at h
  | cons p rest ih =>
      rw [List.map_cons, List.nodup_cons] at hnd
      rcases List.mem_cons.mp h with h1 | h1
      · rw [← h1, alookup]
        simp
      · have hk : ¬ p.1 = k := by
          intro hc
          exact hnd.1 (hc ▸ (List.mem_map_of_mem Prod.fst h1))
        rw [alookup, if_neg hk]
        exact ih hnd.2 h1

theorem alookup_asetAll_notin {κ : Type u} {α : Type v} [DecidableEq κ]
    (new d : List (κ × α)) (k : κ) (h : k ∉ new.map Prod.fst) :
    alookup (asetAll d new) k = alookup d k := by
  induction new generalizing d with
  | nil => simp [asetAll]
  | cons p rest ih =>
      rw [List.map_cons] at h
      have h1 : k ≠ p.1 := fun hc => h (by simp [hc])
      have h2 : k ∉ rest.map Prod.fst := fun hc => h (by simp [hc])
      rw [asetAll, ih _ h2, alookup_aset_ne _ _ _ _ h1]

theorem alookup_asetAll_mem {κ : Type u} {α : Type v} [DecidableEq κ]
    (new d : List (κ × α)) (k : κ) (v : α)
    (hnd : (new.map Prod.fst).Nodup) (h : (k, v) ∈ new) :
    alookup (asetAll d new) k = some v := by
  induction new generalizing d with
  | nil => simp at h
  | cons p rest ih =>
      rw [List.map_cons, List.nodup_cons] at hnd
      rcases List.mem_cons.mp h with h1 | h1
      · have hrest : k ∉ rest.map Prod.fst := by
          rw [← h1] at hnd
          exact hnd.1
        rw [asetAll, alookup_asetAll_notin _ _ _ hrest, ← h1, alookup_aset_self]
      · rw [asetAll]
        exact ih _ hnd.2 h1

theorem alookup_mapset_self {κ : Type u} {α : Type v} [DecidableEq κ]
    (l : List (κ × α)) (k : κ) (f : α → α) (v : α) (h : alookup l k = some v) :
    alookup (l.map fun p => if p.1 = k then (p.1, f p.2) else p) k = some (f v) := by
  induction l with
  | nil => simp [alookup] at h
  | cons p rest ih =>
      by_cases hp : p.1 = k
      · simp [alookup, hp] at h
        simp [List.map_cons, hp, alookup, h]
      · simp [alookup, hp] at h
        simp [List.map_cons, hp, alookup, ih h]

theorem alookup_mapset_ne {κ : Type u} {α : Type v} [DecidableEq κ]
    (l : List (κ × α)) (k k' : κ) (f : α → α) (hne : k' ≠ k) :
    alookup (l.map fun p => if p.1 = k then (p.1, f p.2) else p) k' = alookup l k' := by
  induction l with
  | nil => simp [alookup]
  | cons p rest ih =>
      by_cases hp : p.1 = k
      · simp [List.map_cons, hp, alookup, Ne.symm hne, ih]
      · by_cases hp' : p.1 = k'
        · simp [List.map_cons, hp, alookup, hp', hne]
        · simp [List.map_cons, hp, alookup, hp', ih]

/-- An in-memory Python object as the library sees it: a Django model instance
(or plain fixture value) with its concrete model class name, its primary key
(`pk`, the persistent identity; `none` for unsaved instances), and its field
values.  The whole reachable state of the object graph is folded into
`fields`, so a mutation of a nested field is a mutation of this value. -/
structure MObj where
  typ : String
  pk : Option Nat
  fields : List (String × String)
deriving DecidableEq

/-- The Python in-memory heap: objects live at addresses (`Nat`); `next` is
the next fresh address.  Distinct addresses are distinct Python objects
(`is` distinguishes them); the value stored at an address is the object's
current state. -/
structure Heap where
  next : Nat
  mem : List (Nat × MObj)
deriving DecidableEq

/-- Dereference: the object currently stored at address `r`. -/
def Heap.read (h : Heap) (r : Nat) : Option MObj := alookup h.mem r

/-- In-place mutation of the object at address `r` (covers mutation of any
of its nested fields). -/
def Heap.write (h : Heap) (r : Nat) (o : MObj) : Heap :=
  ⟨h.next, h.mem.map fun p => if p.1 = r then (p.1, o) else p⟩

/-- Allocation of a new object, as done by `copy.deepcopy`: a fresh address
holding the given value, sharing nothing with any existing object. -/
def Heap.alloc (h : Heap) (o : MObj) : Heap × Nat :=
  (⟨h.next + 1, (h.next, o) :: h.mem⟩, h.next)

/-- Heap well-formedness: every allocated address is below `next`. -/
def Heap.wf (h : Heap) : Prop := ∀ p ∈ h.mem, p.1 < h.next

instance (h : Heap) : Decidable h.wf :=
  inferInstanceAs (Decidable (∀ p ∈ h.mem, p.1 < h.next))

theorem Heap.read_alloc (h : Heap) (o : MObj) (r : Nat) :
    (h.alloc o).1.read r = if h.next = r then some o else h.read r := by
  simp [Heap.alloc, Heap.read, alookup]

theorem Heap.read_lt_next (h : Heap) (r : Nat) (o : MObj)
    (hwf : h.wf) (hr : h.read r = some o) : r < h.next :=
  hwf _ (alookup_mem _ _ _ hr)

theorem Heap.wf_alloc (h : Heap) (o : MObj) (hwf : h.wf) : (h.alloc o).1.wf := by
  intro p hp
  rcases List.mem_cons.mp hp with h1 | h1
  · simp [h1, Heap.alloc]
  · exact Nat.lt_succ_of_lt (hwf p h1)

theorem Heap.next_alloc (h : Heap) (o : MObj) : (h.alloc o).1.next = h.next + 1 := rfl

theorem Heap.read_write_self (h : Heap) (r : Nat) (o o0 : MObj)
    (hr : h.read r = some o0) : (h.write r o).read r = some o :=
  alookup_mapset_self h.mem r (fun _ => o) o0 hr

theorem Heap.read_write_ne (h : Heap) (r r' : Nat) (o : MObj) (hne : r' ≠ r) :
    (h.write r o).read r' = h.read r' :=
  alookup_mapset_ne h.mem r r' (fun _ => o) hne

theorem Heap.write_next (h : Heap) (r : Nat) (o : MObj) : (h.write r o).next = h.next := rfl

theorem Heap.wf_write (h : Heap) (r : Nat) (o : MObj) (hwf : h.wf) : (h.write r o).wf := by
  intro p hp
  rcases List.mem_map.mp hp with ⟨q, hq, hq2⟩
  by_cases hqr : q.1 = r
  · rw [if_pos hqr] at hq2
    rw [← hq2]
    exact hwf q hq
  · rw [if_neg hqr] at hq2
    rw [← hq2]
    exact hwf q hq

/-- The backing store of the specification (the Django ORM database):
an opaque key-addressed object store.  `nextId` is the next primary key the
store will hand out on insertion; `recs` maps a primary key to the stored
record, kept as an `MObj` whose `pk` is that key. -/
structure Store where
  nextId : Nat
  recs : List (Nat × MObj)
deriving DecidableEq

/-- Store well-formedness: every record's key is below `nextId`. -/
def Store.wf (st : Store) : Prop := ∀ p ∈ st.recs, p.1 < st.nextId

instance (st : Store) : Decidable st.wf :=
  inferInstanceAs (Decidable (∀ p ∈ st.recs, p.1 < st.nextId))

/-- `insert(obj) -> id` of the backing-store contract (what
`obj.save(force_insert=True)` does on the database side): assign the fresh
primary key to the record and store it. -/
def Store.insert (st : Store) (o : MObj) : Store × Nat :=
  (⟨st.nextId + 1, (st.nextId, { o with pk := some st.nextId }) :: st.recs⟩, st.nextId)

/-- `update(id, fieldMap)` of the backing-store contract (what
`QuerySet.filter(pk=...).update(**fields)` does): merge the given fields into
the record stored under `i`, touching nothing else. -/
def Store.update (st : Store) (i : Nat) (fields : List (String × String)) : Store :=
  ⟨st.nextId,
    st.recs.map fun p =>
      if p.1 = i then (p.1, { p.2 with fields := asetAll p.2.fields fields }) else p⟩

/-- `get(id)` of the backing-store contract. -/
def Store.get (st : Store) (i : Nat) : Option MObj := alookup st.recs i

theorem Store.get_insert (st : Store) (o : MObj) (i : Nat) :
    (st.insert o).1.get i =
      if st.nextId = i then some { o with pk := some st.nextId } else st.get i := by
  simp [Store.insert, Store.get, alookup]

theorem Store.get_update_self (st : Store) (i : Nat) (fields : List (String × String))
    (rec : MObj) (hr : st.get i = some rec) :
    (st.update i fields).get i = some { rec with fields := asetAll rec.fields fields } :=
  alookup_mapset_self st.recs i (fun o => { o with fields := asetAll o.fields fields }) rec hr

theorem Store.get_update_ne (st : Store) (i j : Nat) (fields : List (String × String))
    (hne : j ≠ i) : (st.update i fields).get j = st.get j :=
  alookup_mapset_ne st.recs i j (fun o => { o with fields := asetAll o.fields fields }) hne

/-- The per-test-class state the fixture engine works on: `attrs` is the
class `__dict__` (attribute name → address of the bound object) and `cache`
is the `_created_objects` fixture registry (key → address), the dict that
`BaseTestCaseMeta.__new__` installs on every class. -/
structure ClsState where
  attrs : List (String × Nat)
  cache : List (String × Nat)
deriving DecidableEq

/-- Python `==` on two object references as `wrap_test_data`'s diff uses it.
For references to the same object it is `True`; otherwise it follows Django's
documented `Model.__eq__` (an external collaborator): equal concrete model
class and equal primary keys, where an unsaved instance (`pk is None`) is
equal only to itself. -/
def modelEq (h : Heap) (r1 r2 : Nat) : Bool :=
  if r1 = r2 then true
  else
    match h.read r1, h.read r2 with
    | some o1, some o2 =>
        if o1.typ = o2.typ then
          match o1.pk with
          | none => false
          | some p => o2.pk == some p
        else false
    | _, _ => false

/-- The capture condition of `wrap_test_data`'s wrapper:
`before.get(k) != v`, i.e. attribute `k` is new or its value changed. -/
def changedB (h : Heap) (before : List (String × Nat)) (k : String) (r : Nat) : Bool :=
  match alookup before k with
  | none => true
  | some r0 => ! modelEq h r0 r

/-- The capture loop of `wrap_test_data`'s wrapper:
`for k, v in after.items(): if before.get(k) != v: cache[k] = v`.
Note that it stores `v` itself — the very reference bound to the class
attribute — not a copy of it. -/
def capture (h : Heap) (before : List (String × Nat)) :
    List (String × Nat) → List (String × Nat) → List (String × Nat)
  | [], cache => cache
  | p :: rest, cache =>
      capture h before rest
        (if changedB h before p.1 p.2 then aset cache p.1 p.2 else cache)

/-- `wrap_test_data`: wraps a `setUpTestData` effect `func` so that, after it
runs, the diff of the class `__dict__` before/after is recorded into the
`_created_objects` registry. -/
def wrap_test_data (func : ClsState → Heap → ClsState × Heap) :
    ClsState → Heap → ClsState × Heap :=
  fun cls h =>
    let before := cls.attrs
    let res := func cls h
    ({ res.1 with cache := capture res.2 before res.1.attrs res.1.cache }, res.2)

/-- The loop of `BaseTestCase.refresh_objects`:
`for k, v in cache.items(): setattr(cls, k, deepcopy(v))`, processing the
registry entries in order.  `deepcopy(v)` is an allocation of the stored
value at a fresh address. -/
def refreshAux : List (String × Nat) → ClsState → Heap → ClsState × Heap
  | [], s, h => (s, h)
  | p :: rest, s, h =>
      match h.read p.2 with
      | some o =>
          refreshAux rest { s with attrs := aset s.attrs p.1 (h.alloc o).2 } (h.alloc o).1
      | none => refreshAux rest s h

/-- `BaseTestCase.refresh_objects`: reset the in-memory state of every
registered fixture by rebinding its class attribute to a deep copy of the
registry value. -/
def refresh_objects (s : ClsState) (h : Heap) : ClsState × Heap :=
  refreshAux s.cache s h

/-- The search loop of `BaseTestCase.forget_object`: the first registry key
whose value matches the given object by
`type(v) is type(obj) and v.pk == obj.pk` (note `None == None` is `True`). -/
def findForgetKey (h : Heap) (obj : MObj) : List (String × Nat) → Option String
  | [] => none
  | p :: rest =>
      match h.read p.2 with
      | some v => if v.typ = obj.typ ∧ v.pk = obj.pk then some p.1 else findForgetKey h obj rest
      | none => findForgetKey h obj rest

/-- `BaseTestCase.forget_object`: remove from the registry the first entry
matching the given object, if any.  The second component is the Python
return value: the source has no `return` statement, so it is always `None`. -/
def forget_object (h : Heap) (s : ClsState) (objRef : Nat) : ClsState × Option String :=
  match h.read objRef with
  | none => (s, none)
  | some obj =>
      let key := findForgetKey h obj s.cache
      ({ s with cache := match key with
                         | some k => adel s.cache k
                         | none => s.cache }, none)

/-- `BaseTestCase.clone_object`: `obj = deepcopy(obj); obj.pk = None;`
then `setattr(obj, k, v)` for each override, then
`obj.save(force_insert=True)` (a backing-store insert that assigns the fresh
primary key to the in-memory copy).  Returns (heap, store, address of the
clone). -/
def clone_object (h : Heap) (st : Store) (r : Nat)
    (overrides : List (String × String)) : Heap × Store × Nat :=
  match h.read r with
  | none => (h, st, r)
  | some o =>
      let a := h.alloc o
      let o2 : MObj := { o with pk := none, fields := asetAll o.fields overrides }
      let ins := st.insert o2
      (a.1.write a.2 { o2 with pk := some ins.2 }, ins.1, a.2)

/-- `zip(args_iter, args_iter)` over one shared iterator: consume the
positional arguments pairwise, in order; a trailing unpaired element is
dropped. -/
def pairUp {α : Type u} : List α → List (α × α)
  | a :: b :: rest => (a, b) :: pairUp rest
  | _ => []

/-- `BaseTestCase.update_object`: merge the pairwise-consumed positional
arguments into the keyword fields, then
`obj._meta.model.objects.filter(pk=obj.pk).update(**kwargs)` — a
backing-store-only write; the in-memory heap is returned untouched.
With `pk=None` the filter matches no record and the store is unchanged. -/
def update_object (h : Heap) (st : Store) (r : Nat)
    (args : List String) (kwargs : List (String × String)) : Heap × Store :=
  match h.read r with
  | none => (h, st)
  | some o =>
      let kw := asetAll kwargs (pairUp args)
      match o.pk with
      | some i => (h, st.update i kw)
      | none => (h, st)

/-- `BaseTestCase.reload`: `obj._meta.model.objects.get(pk=obj.pk)` — fetch a
fresh, independent in-memory object populated from the store's current record
for the object's primary key.  Returns `none` where Django would raise
(`pk` is `None` or no record). -/
def reload (h : Heap) (st : Store) (r : Nat) : Heap × Option Nat :=
  match h.read r with
  | none => (h, none)
  | some o =>
      match o.pk with
      | none => (h, none)
      | some i =>
          match st.get i with
          | none => (h, none)
          | some rec => ((h.alloc rec).1, some (h.alloc rec).2)

/-- Per-test-instance state of `TimeMixin`: the mutable virtual instant
`self.now` and the active flags of the two patchers the mixin starts. -/
structure TimeState where
  now : Nat
  nowPatcherActive : Bool
  tzPatcherActive : Bool
deriving DecidableEq

/-- `TimeMixin.setUp`: `self.now = timezone.now()` (the real current instant
passed in as `realNow`), then start both patchers. -/
def TimeMixin.setUp (_t : TimeState) (realNow : Nat) : TimeState :=
  { now := realNow, nowPatcherActive := true, tzPatcherActive := true }

/-- `TimeMixin.tearDown`: stop both patchers. -/
def TimeMixin.tearDown (t : TimeState) : TimeState :=
  { t with nowPatcherActive := false, tzPatcherActive := false }

/-- `TimeMixin.get_now`: `return self.now`. -/
def TimeMixin.get_now (t : TimeState) : Nat := t.now

/-- The assignment `self.now = ...` a test body performs to travel in time. -/
def TimeMixin.set_now (t : TimeState) (v : Nat) : TimeState := { t with now := v }

/-- A call of `django.utils.timezone.now()` during the test: the patcher
installed with `side_effect=self.get_now` re-evaluates `get_now` on every
call (no caching); with the patcher inactive the real clock answers. -/
def timezone_now (real : Nat) (t : TimeState) : Nat :=
  if t.nowPatcherActive then TimeMixin.get_now t else real

/-- `BaseTestCase.setUp`: `self.refresh_objects()` then `super().setUp()`
(which is `TimeMixin.setUp`), so every registry entry is restored before the
test method runs. -/
def BaseTestCase.setUp (s : ClsState) (h : Heap) (t : TimeState) (realNow : Nat) :
    (ClsState × Heap) × TimeState :=
  (refresh_objects s h, TimeMixin.setUp t realNow)

/-- A patch activation state: each patcher (identified by a `Nat`) is active
or inactive (spec §3, Patch). -/
def PatchState : Type := Nat → Bool

/-- `patcher.stop()` on the patch lifecycle (external `unittest.mock`
collaborator, spec §4.2): deactivate one patch. -/
def patchStop (st : PatchState) (p : Nat) : PatchState :=
  fun q => if q = p then false else st q

/-- `patcher.start()`: activate one patch. -/
def patchStart (st : PatchState) (p : Nat) : PatchState :=
  fun q => if q = p then true else st q

/-- The first loop of `disable_patchers`: stop the listed patchers in order. -/
def stopAll (ps : List Nat) (st : PatchState) : PatchState :=
  ps.foldl patchStop st

/-- The second loop of `disable_patchers`: start the listed patchers in order. -/
def startAll (ps : List Nat) (st : PatchState) : PatchState :=
  ps.foldl patchStart st

/-- Observable events of one `disable_patchers` use, to state in which order
patches are stopped, the protected work runs, and patches are restarted. -/
inductive PatchEvent where
  | stop (p : Nat)
  | run
  | start (p : Nat)
deriving DecidableEq

/-- `disable_patchers.__call__`'s `inner`: `try:` stop every listed patcher in
order, run the wrapped test method, `finally:` start every listed patcher in
order.  The work either returns or raises (`Except`); the `finally` block runs
in both cases and the work's outcome — its error included — propagates
afterwards.  Returns (outcome, final patch state, event trace). -/
def disable_patchers_call {σ ε : Type} (ps : List Nat) (work : σ → Except ε σ)
    (st : PatchState) (w : σ) : Except ε σ × PatchState × List PatchEvent :=
  let st1 := stopAll ps st
  let res := work w
  let st2 := startAll ps st1
  (res, st2, (ps.map PatchEvent.stop) ++ [PatchEvent.run] ++ (ps.map PatchEvent.start))

/-- `disable_patchers.__enter__`: stop every listed patcher in order. -/
def disable_patchers_enter (ps : List Nat) (st : PatchState) : PatchState :=
  stopAll ps st

/-- `disable_patchers.__exit__`: start every listed patcher in order.  It
returns `None`, so a pending exception propagates after it runs. -/
def disable_patchers_exit (ps : List Nat) (st : PatchState) : PatchState :=
  startAll ps st

/-- A `with disable_patchers(...)` block around `work`: Python runs
`__enter__`, the body, then `__exit__` on every exit path, and the body's
exception (if any) propagates because `__exit__` returns `None`. -/
def disable_patchers_with {σ ε : Type} (ps : List Nat) (work : σ → Except ε σ)
    (st : PatchState) (w : σ) : Except ε σ × PatchState :=
  let st1 := disable_patchers_enter ps st
  let res := work w
  (res, disable_patchers_exit ps st1)

/-- A `setUpTestData` class method as `BaseTestCaseMeta.__new__` sees it:
how many `wrap_test_data` layers are around the original function, whether
the `_records_objects` marker attribute sits on the `classmethod` object
(where `setattr(setup, RECORDS_OBJECTS, True)` puts it), and whether it sits
on the underlying plain function (`functools.wraps` copies function
attributes when wrapping). -/
structure SetupMethod where
  wrapDepth : Nat
  cmMark : Bool
  fnMark : Bool
deriving DecidableEq

/-- How `BaseTestCaseMeta.__new__` obtains the setup routine: from the class
body's own `attrs` (the raw `classmethod` object), or from a base class via
`getattr` (a bound method), or not at all. -/
inductive SetupLookup where
  | ownAttr (m : SetupMethod)
  | inherited (m : SetupMethod)
  | absent
deriving DecidableEq

/-- `hasattr(setup, RECORDS_OBJECTS)` along each retrieval path.  On the raw
`classmethod` object the marker set by `setattr` is found in the
classmethod's own `__dict__` (a classmethod object does not expose its
function's attributes).  A bound method delegates attribute reads to its
underlying function (`__func__`), so only a marker on the function is
visible there — the marker on the `classmethod` object is not. -/
def visibleMark : SetupLookup → Bool
  | .ownAttr m => m.cmMark
  | .inherited m => m.fnMark
  | .absent => false

/-- `wrap_test_data` at the method-object level: it takes `__func__` of the
given (class)method, wraps it in a new plain function — `functools.wraps`
copies the function's attributes onto the wrapper — and returns a fresh
`classmethod` object around the wrapper (which carries no marker yet). -/
def wrapSetupMethod (m : SetupMethod) : SetupMethod :=
  { wrapDepth := m.wrapDepth + 1, cmMark := false, fnMark := m.fnMark }

/-- The `setUpTestData` handling in `BaseTestCaseMeta.__new__`: if a setup
routine was found and `hasattr(setup, RECORDS_OBJECTS)` is false, wrap it,
set the marker on the new `classmethod` object, and install it in `attrs`;
otherwise leave it as it is.  Returns the class's effective setup method. -/
def metaclass_setup : SetupLookup → Option SetupMethod
  | .absent => none
  | .ownAttr m =>
      if visibleMark (.ownAttr m) then some m
      else some { wrapSetupMethod m with cmMark := true }
  | .inherited m =>
      if visibleMark (.inherited m) then some m
      else some { wrapSetupMethod m with cmMark := true }

/-- The operations the fixture engine performs on a test class after
`setUpTestData` has run: the per-test restore (`refresh_objects`, called from
`setUp`) and explicit exclusion (`forget_object`). -/
inductive EngineOp where
  | refresh
  | forget (objRef : Nat)
deriving DecidableEq

/-- Run one engine operation on the class state and heap. -/
def runOp (x : ClsState × Heap) : EngineOp → ClsState × Heap
  | .refresh => refresh_objects x.1 x.2
  | .forget r => ((forget_object x.2 x.1 r).1, x.2)

/-- Run a sequence of engine operations, oldest first. -/
def runOps (x : ClsState × Heap) : List EngineOp → ClsState × Heap
  | [] => x
  | op :: rest => runOps (runOp x op) rest

theorem refreshAux_cache (l : List (String × Nat)) (s : ClsState) (h : Heap) :
    (refreshAux l s h).1.cache = s.cache := by
  induction l generalizing s h with
  | nil => rfl
  | cons p rest ih =>
      rw [refreshAux]
      cases h.read p.2 with
      | none => exact ih s h
      | some o => exact ih _ _

theorem refreshAux_next_mono (l : List (String × Nat)) (s : ClsState) (h : Heap) :
    h.next ≤ (refreshAux l s h).2.next := by
  induction l generalizing s h with
  | nil => exact Nat.le_refl _
  | cons p rest ih =>
      rw [refreshAux]
      cases h.read p.2 with
      | none => exact ih s h
      | some o =>
          exact Nat.le_trans (Nat.le_succ _)
            (ih { s with attrs := aset s.attrs p.1 (h.alloc o).2 } (h.alloc o).1)

theorem refreshAux_read_preserved (l : List (String × Nat)) (s : ClsState) (h : Heap)
    (r : Nat) (hr : r < h.next) : (refreshAux l s h).2.read r = h.read r := by
  induction l generalizing s h with
  | nil => rfl
  | cons p rest ih =>
      rw [refreshAux]
      cases h.read p.2 with
      | none => exact ih s h hr
      | some o =>
          rw [ih _ _ (Nat.lt_succ_of_lt hr), Heap.read_alloc,
            if_neg (Nat.ne_of_gt hr)]

theorem refreshAux_wf (l : List (String × Nat)) (s : ClsState) (h : Heap)
    (hwf : h.wf) : (refreshAux l s h).2.wf := by
  induction l generalizing s h with
  | nil => exact hwf
  | cons p rest ih =>
      rw [refreshAux]
      cases h.read p.2 with
      | none => exact ih s h hwf
      | some o => exact ih _ _ (Heap.wf_alloc h o hwf)

theorem refreshAux_attrs_notin (l : List (String × Nat)) (s : ClsState) (h : Heap)
    (k : String) (hk : k ∉ l.map Prod.fst) :
    alookup (refreshAux l s h).1.attrs k = alookup s.attrs k := by
  induction l generalizing s h with
  | nil => rfl
  | cons p rest ih =>
      rw [List.map_cons] at hk
      have h1 : k ≠ p.1 := fun hc => hk (by simp [hc])
      have h2 : k ∉ rest.map Prod.fst := fun hc => hk (by simp [hc])
      rw [refreshAux]
      cases h.read p.2 with
      | none => exact ih s h h2
      | some o => rw [ih _ _ h2]; exact alookup_aset_ne _ _ _ _ h1

theorem refreshAux_spec (l : List (String × Nat)) (s : ClsState) (h : Heap)
    (hwf : h.wf) (hnd : (l.map Prod.fst).Nodup)
    (halloc : ∀ p ∈ l, (h.read p.2).isSome = true) :
    ∀ p ∈ l, ∃ r', alookup (refreshAux l s h).1.attrs p.1 = some r' ∧
      p.2 < h.next ∧ h.next ≤ r' ∧
      (refreshAux l s h).2.read r' = h.read p.2 ∧
      (refreshAux l s h).2.read p.2 = h.read p.2 := by
  induction l generalizing s h with
  | nil => intro p hp; simp at hp
  | cons q rest ih =>
      rw [List.map_cons, List.nodup_cons] at hnd
      have hq := halloc q (List.mem_cons_self q rest)
      rcases Option.isSome_iff_exists.mp hq with ⟨o, ho⟩
      have hqlt : q.2 < h.next := Heap.read_lt_next h q.2 o hwf ho
      have hwf2 : (h.alloc o).1.wf := Heap.wf_alloc h o hwf
      have hpres : ∀ r, r < h.next → (h.alloc o).1.read r = h.read r := by
        intro r hr
        rw [Heap.read_alloc, if_neg (Nat.ne_of_gt hr)]
      intro p hp
      rcases List.mem_cons.mp hp with h1 | h1
      · subst h1
        refine ⟨h.next, ?_, hqlt, Nat.le_refl _, ?_, ?_⟩
        · rw [refreshAux, ho]
          rw [refreshAux_attrs_notin _ _ _ _ hnd.1]
          exact alookup_aset_self _ _ _
        · rw [refreshAux, ho]
          rw [refreshAux_read_preserved _ _ _ _ (by rw [Heap.next_alloc]; exact Nat.lt_succ_self _)]
          rw [Heap.read_alloc, if_pos rfl]
        · rw [refreshAux, ho]
          rw [refreshAux_read_preserved _ _ _ _ (by rw [Heap.next_alloc]; exact Nat.lt_succ_of_lt hqlt)]
          rw [hpres _ hqlt, ho]
      · have hplt : p.2 < h.next := by
          rcases Option.isSome_iff_exists.mp (halloc p (List.mem_cons_of_mem _ h1)) with ⟨o2, ho2⟩
          exact Heap.read_lt_next h p.2 o2 hwf ho2
        have halloc2 : ∀ r ∈ rest, ((h.alloc o).1.read r.2).isSome = true := by
          intro r hr
          rcases Option.isSome_iff_exists.mp (halloc r (List.mem_cons_of_mem _ hr)) with ⟨o2, ho2⟩
          rw [hpres _ (Heap.read_lt_next h r.2 o2 hwf ho2), ho2]
          rfl
        rcases ih _ _ hwf2 hnd.2 halloc2 p h1 with ⟨r', ha, hlt, hge, hread, hsnap⟩
        refine ⟨r', ?_, hplt, ?_, ?_, ?_⟩
        · rw [refreshAux, ho]; exact ha
        · exact Nat.le_trans (Nat.le_succ _) hge
        · rw [refreshAux, ho, hread, hpres _ hplt]
        · rw [refreshAux, ho, hsnap, hpres _ hplt]

theorem capture_notin (h : Heap) (before after cache : List (String × Nat))
    (k : String) (hk : k ∉ after.map Prod.fst) :
    alookup (capture h before after cache) k = alookup cache k := by
  induction after generalizing cache with
  | nil => rfl
  | cons p rest ih =>
      rw [List.map_cons] at hk
      have h1 : k ≠ p.1 := fun hc => hk (by simp [hc])
      have h2 : k ∉ rest.map Prod.fst := fun hc => hk (by simp [hc])
      rw [capture, ih _ h2]
      by_cases hc : changedB h before p.1 p.2
      · rw [if_pos hc]; exact alookup_aset_ne _ _ _ _ h1
      · rw [if_neg hc]

theorem capture_mem_changed (h : Heap) (before after cache : List (String × Nat))
    (k : String) (r : Nat) (hnd : (after.map Prod.fst).Nodup)
    (hm : (k, r) ∈ after) (hch : changedB h before k r = true) :
    alookup (capture h before after cache) k = some r := by
  induction after generalizing cache with
  | nil => simp at hm
  | cons p rest ih =>
      rw [List.map_cons, List.nodup_cons] at hnd
      rcases List.mem_cons.mp hm with h1 | h1
      · have hrest : k ∉ rest.map Prod.fst := by
          rw [← h1] at hnd
          exact hnd.1
        rw [capture, capture_notin _ _ _ _ _ hrest, ← h1, if_pos hch]
        exact alookup_aset_self _ _ _
      · rw [capture]
        exact ih _ hnd.2 h1

theorem capture_fix (h : Heap) (before after cache : List (String × Nat))
    (hfix : ∀ p ∈ after, changedB h before p.1 p.2 = true → alookup cache p.1 = some p.2) :
    capture h before after cache = cache := by
  induction after with
  | nil => rfl
  | cons p rest ih =>
      rw [capture]
      by_cases hc : changedB h before p.1 p.2
      · rw [if_pos hc, aset_eq_self _ _ _ (hfix p (List.mem_cons_self p rest) hc)]
        exact ih fun q hq => hfix q (List.mem_cons_of_mem _ hq)
      · rw [if_neg hc]
        exact ih fun q hq => hfix q (List.mem_cons_of_mem _ hq)

/-- Running the capture loop a second time over the same diff is a no-op:
the registry is a key-value map and the nested pass rewrites identical
entries. -/
theorem capture_idem (h : Heap) (before after cache : List (String × Nat))
    (hnd : (after.map Prod.fst).Nodup) :
    capture h before after (capture h before after cache) =
      capture h before after cache :=
  capture_fix h before after _ fun p hp hch =>
    capture_mem_changed h before after cache p.1 p.2 hnd (by rw [Prod.mk.eta]; exact hp) hch

theorem adel_keys_subset {κ : Type u} {α : Type v} [DecidableEq κ]
    (l : List (κ × α)) (key k : κ) (hk : k ∉ l.map Prod.fst) :
    k ∉ (adel l key).map Prod.fst := by
  induction l with
  | nil => exact hk
  | cons p rest ih =>
      rw [List.map_cons] at hk
      have h1 : k ≠ p.1 := fun hc => hk (by simp [hc])
      have h2 : k ∉ rest.map Prod.fst := fun hc => hk (by simp [hc])
      rw [adel]
      by_cases hp : p.1 = key
      · rw [if_pos hp]; exact h2
      · rw [if_neg hp, List.map_cons]
        intro hc
        rcases List.mem_cons.mp hc with hc1 | hc1
        · exact h1 hc1
        · exact ih h2 hc1

theorem findForgetKey_some (h : Heap) (obj : MObj) (l : List (String × Nat))
    (k : String) (hf : findForgetKey h obj l = some k) :
    ∃ r v, (k, r) ∈ l ∧ h.read r = some v ∧ v.typ = obj.typ ∧ v.pk = obj.pk := by
  induction l with
  | nil => simp [findForgetKey] at hf
  | cons p rest ih =>
      rw [findForgetKey] at hf
      cases hr : h.read p.2 with
      | none =>
          simp only [hr] at hf
          rcases ih hf with ⟨r, v, hm, hv, ht, hp⟩
          exact ⟨r, v, List.mem_cons_of_mem _ hm, hv, ht, hp⟩
      | some v =>
          simp only [hr] at hf
          by_cases hm : v.typ = obj.typ ∧ v.pk = obj.pk
          · rw [if_pos hm] at hf
            cases hf
            exact ⟨p.2, v, by simp, hr, hm⟩
          · rw [if_neg hm] at hf
            rcases ih hf with ⟨r, v2, hmem, hv, ht, hp⟩
            exact ⟨r, v2, List.mem_cons_of_mem _ hmem, hv, ht, hp⟩

theorem findForgetKey_none (h : Heap) (obj : MObj) (l : List (String × Nat))
    (hno : ∀ p ∈ l, ∀ v, h.read p.2 = some v → ¬(v.typ = obj.typ ∧ v.pk = obj.pk)) :
    findForgetKey h obj l = none := by
  induction l with
  | nil => rfl
  | cons p rest ih =>
      rw [findForgetKey]
      cases hr : h.read p.2 with
      | none => exact ih fun q hq => hno q (List.mem_cons_of_mem _ hq)
      | some v =>
          show (if v.typ = obj.typ ∧ v.pk = obj.pk then some p.1
            else findForgetKey h obj rest) = none
          rw [if_neg (hno p (List.mem_cons_self p rest) v hr)]
          exact ih fun q hq => hno q (List.mem_cons_of_mem _ hq)

theorem forget_object_attrs (hh : Heap) (s : ClsState) (objRef : Nat) :
    (forget_object hh s objRef).1.attrs = s.attrs := by
  unfold forget_object
  cases hh.read objRef with
  | none => rfl
  | some obj => rfl

theorem forget_object_cache_keys (hh : Heap) (s : ClsState) (objRef : Nat) (k : String)
    (hk : k ∉ s.cache.map Prod.fst) :
    k ∉ ((forget_object hh s objRef).1.cache.map Prod.fst) := by
  unfold forget_object
  cases hh.read objRef with
  | none => exact hk
  | some obj =>
      show k ∉ ((match findForgetKey hh obj s.cache with
                 | some key => adel s.cache key
                 | none => s.cache).map Prod.fst)
      cases findForgetKey hh obj s.cache with
      | none => exact hk
      | some key => exact adel_keys_subset _ _ _ hk

theorem runOp_cache_keys (x : ClsState × Heap) (op : EngineOp) (k : String)
    (hk : k ∉ x.1.cache.map Prod.fst) : k ∉ ((runOp x op).1.cache.map Prod.fst) := by
  cases op with
  | refresh =>
      show k ∉ ((refresh_objects x.1 x.2).1.cache.map Prod.fst)
      rw [refresh_objects, refreshAux_cache]
      exact hk
  | forget r => exact forget_object_cache_keys x.2 x.1 r k hk

theorem runOp_attrs_notin (x : ClsState × Heap) (op : EngineOp) (k : String)
    (hk : k ∉ x.1.cache.map Prod.fst) :
    alookup (runOp x op).1.attrs k = alookup x.1.attrs k := by
  cases op with
  | refresh =>
      show alookup (refresh_objects x.1 x.2).1.attrs k = _
      rw [refresh_objects]
      exact refreshAux_attrs_notin _ _ _ _ hk
  | forget r =>
      show alookup (forget_object x.2 x.1 r).1.attrs k = _
      rw [forget_object_attrs]

/-- Forget monotonicity: a key absent from the registry stays absent under
any later sequence of restores and forgets, and its class attribute slot is
never rebound by them again. -/
theorem runOps_forgotten (ops : List EngineOp) (x : ClsState × Heap) (k : String)
    (hk : k ∉ x.1.cache.map Prod.fst) :
    k ∉ ((runOps x ops).1.cache.map Prod.fst) ∧
      alookup (runOps x ops).1.attrs k = alookup x.1.attrs k := by
  induction ops generalizing x with
  | nil => exact ⟨hk, rfl⟩
  | cons op rest ih =>
      rcases ih (runOp x op) (runOp_cache_keys x op k hk) with ⟨h1, h2⟩
      exact ⟨h1, by rw [runOps, h2, runOp_attrs_notin x op k hk]⟩

theorem stopAll_apply (ps : List Nat) (st : PatchState) (q : Nat) :
    stopAll ps st q = if q ∈ ps then false else st q := by
  induction ps generalizing st with
  | nil => simp [stopAll]
  | cons p rest ih =>
      show stopAll rest (patchStop st p) q = _
      rw [ih]
      by_cases hq : q ∈ rest
      · simp [hq]
      · by_cases hqp : q = p
        · simp [hq, hqp, patchStop]
        · simp [hq, hqp, patchStop]

theorem startAll_apply (ps : List Nat) (st : PatchState) (q : Nat) :
    startAll ps st q = if q ∈ ps then true else st q := by
  induction ps generalizing st with
  | nil => simp [startAll]
  | cons p rest ih =>
      show startAll rest (patchStart st p) q = _
      rw [ih]
      by_cases hq : q ∈ rest
      · simp [hq]
      · by_cases hqp : q = p
        · simp [hq, hqp, patchStart]
        · simp [hq, hqp, patchStart]

theorem pairUp_odd {α : Type u} :
    (l : List α) → l.length % 2 = 1 → pairUp l = pairUp l.dropLast
  | [], h => by simp at h
  | [a], _ => rfl
  | a :: b :: t, h => by
      have ht : t.length % 2 = 1 := by
        rw [List.length_cons, List.length_cons] at h
        omega
      have hne : t ≠ [] := by
        intro hc
        rw [hc] at ht
        simp at ht
      have hd : (a :: b :: t).dropLast = a :: b :: t.dropLast := by
        rcases List.exists_cons_of_ne_nil hne with ⟨c, t2, hct⟩
        subst hct
        rfl
      rw [hd, pairUp, pairUp, pairUp_odd t ht]

/-- A small concrete fixture object used to instantiate the theorems. -/
def exObj : MObj := ⟨"Project", some 1, [("name", "project")]⟩

/-- A one-object heap holding `exObj` at address 0. -/
def exHeap : Heap := ⟨1, [(0, exObj)]⟩

/-- A test-class state with one registered fixture attribute `project`. -/
def exCls : ClsState := ⟨[("project", 0)], [("project", 0)]⟩

/-- A concrete time state with the patchers stopped. -/
def exTime : TimeState := ⟨0, false, false⟩

/-- A concrete `setUpTestData` body: create one model instance and bind it to
the class attribute `project`. -/
def exSetUpTestData (cls : ClsState) (h : Heap) : ClsState × Heap :=
  ({ cls with attrs := aset cls.attrs "project" (h.alloc exObj).2 }, (h.alloc exObj).1)

/-- C3: for every sequence of patches suspended by `disable_patchers` (as
decorator or context manager) around a unit of work, each patch is stopped
before the work and restarted afterwards in the same order, on every exit
path: the work's outcome — a raised error included — propagates unchanged
after all patches are restarted, and each listed patch's active state after
resume equals its (active) state before suspend. -/
theorem C3_disable_patchers_balance {σ ε : Type} (ps : List Nat)
    (work : σ → Except ε σ) (st : PatchState) (w : σ)
    (hact : ∀ p ∈ ps, st p = true) :
    (disable_patchers_call ps work st w).1 = work w ∧
    (∀ q, (disable_patchers_call ps work st w).2.1 q = st q) ∧
    (disable_patchers_call ps work st w).2.2 =
      (ps.map PatchEvent.stop) ++ [PatchEvent.run] ++ (ps.map PatchEvent.start) ∧
    (disable_patchers_with ps work st w).1 = work w ∧
    (∀ q, (disable_patchers_with ps work st w).2 q = st q) := by
  have hrestore : ∀ q, startAll ps (stopAll ps st) q = st q := by
    intro q
    rw [startAll_apply, stopAll_apply]
    by_cases hq : q ∈ ps
    · rw [if_pos hq]
      exact (hact q hq).symm
    · rw [if_neg hq, if_neg hq]
  exact ⟨rfl, hrestore, rfl, rfl, hrestore⟩

/-- C3 witness: two active patches around failing work; the error propagates
and both patches end active as before. -/
theorem C3_disable_patchers_balance_witness :
    (∀ p ∈ [0, 1], (fun _ => true : PatchState) p = true) ∧
    ((disable_patchers_call [0, 1] (fun _ : Nat => (Except.error "boom" : Except String Nat))
        (fun _ => true) 7).1 = (fun _ : Nat => (Except.error "boom" : Except String Nat)) 7 ∧
      (∀ q, (disable_patchers_call [0, 1]
          (fun _ : Nat => (Except.error "boom" : Except String Nat))
          (fun _ => true) 7).2.1 q = (fun _ => true : PatchState) q) ∧
      (disable_patchers_call [0, 1] (fun _ : Nat => (Except.error "boom" : Except String Nat))
          (fun _ => true) 7).2.2 =
        (([0, 1] : List Nat).map PatchEvent.stop) ++ [PatchEvent.run] ++
          (([0, 1] : List Nat).map PatchEvent.start) ∧
      (disable_patchers_with [0, 1] (fun _ : Nat => (Except.error "boom" : Except String Nat))
          (fun _ => true) 7).1 = (fun _ : Nat => (Except.error "boom" : Except String Nat)) 7 ∧
      (∀ q, (disable_patchers_with [0, 1]
          (fun _ : Nat => (Except.error "boom" : Except String Nat))
          (fun _ => true) 7).2 q = (fun _ => true : PatchState) q)) :=
  ⟨by decide,
    C3_disable_patchers_balance [0, 1]
      (fun _ : Nat => (Except.error "boom" : Except String Nat)) (fun _ => true) 7 (by decide)⟩

/-- C4: within one test instance with the now-patcher active, every read of
the virtualized now returns the test's mutable instant: two reads without an
intervening assignment return equal values (whatever the real clock says),
after `self.now = v` the very next read returns exactly `v` with no caching,
and right after `TimeMixin.setUp` a read returns the instant it installed. -/
theorem C4_clock_determinism (t : TimeState) (real real2 v : Nat)
    (hp : t.nowPatcherActive = true) :
    timezone_now real t = timezone_now real2 t ∧
    timezone_now real (TimeMixin.set_now t v) = v ∧
    timezone_now real (TimeMixin.setUp t real2) = real2 := by
  refine ⟨?_, ?_, ?_⟩ <;>
    simp [timezone_now, TimeMixin.set_now, TimeMixin.setUp, TimeMixin.get_now, hp]

/-- C4 witness at a concrete active time state. -/
theorem C4_clock_determinism_witness :
    (⟨5, true, true⟩ : TimeState).nowPatcherActive = true ∧
    (timezone_now 10 ⟨5, true, true⟩ = timezone_now 11 ⟨5, true, true⟩ ∧
      timezone_now 10 (TimeMixin.set_now ⟨5, true, true⟩ 42) = 42 ∧
      timezone_now 10 (TimeMixin.setUp ⟨5, true, true⟩ 11) = 11) :=
  ⟨by decide, C4_clock_determinism ⟨5, true, true⟩ 10 11 42 (by decide)⟩

/-- C10: `update_object` accepts field updates positionally as well as by
keyword: the positional arguments are consumed pairwise in order as
(field name, value) pairs merged into the keyword field map before the store
update, and an odd trailing positional argument is silently ignored. -/
theorem C10_update_object_positional_pairs (h : Heap) (st : Store) (r : Nat)
    (args : List String) (kwargs : List (String × String)) :
    update_object h st r args kwargs =
      update_object h st r [] (asetAll kwargs (pairUp args)) ∧
    (∀ a b : String, ∀ t : List String, pairUp (a :: b :: t) = (a, b) :: pairUp t) ∧
    (args.length % 2 = 1 →
      update_object h st r args kwargs = update_object h st r args.dropLast kwargs) := by
  refine ⟨?_, fun a b t => rfl, fun hodd => ?_⟩
  · cases hr : h.read r with
    | none => rfl
    | some o => rfl
  · simp only [update_object]
    rw [pairUp_odd args hodd]

/-- C1: for every key still in the fixture registry (i.e. not yet forgotten),
the per-test `BaseTestCase.setUp` rebinds the class attribute to a fresh deep
copy of the registry's stored value before the test method runs: the rebound
address differs from the stored one, the rebound value is structurally equal
to the stored value, the stored snapshot value is untouched by the restore,
and any mutation of the rebound object (or of its nested fields) leaves the
stored snapshot value unchanged. -/
theorem C1_setUp_restores_fresh_deep_copies (s : ClsState) (h : Heap)
    (t : TimeState) (realNow : Nat)
    (hwf : h.wf) (hnd : (s.cache.map Prod.fst).Nodup)
    (halloc : ∀ p ∈ s.cache, (h.read p.2).isSome = true) :
    ∀ p ∈ s.cache, ∃ r',
      alookup ((BaseTestCase.setUp s h t realNow).1.1.attrs) p.1 = some r' ∧
      r' ≠ p.2 ∧
      (BaseTestCase.setUp s h t realNow).1.2.read r' = h.read p.2 ∧
      (BaseTestCase.setUp s h t realNow).1.2.read p.2 = h.read p.2 ∧
      ∀ o, (((BaseTestCase.setUp s h t realNow).1.2).write r' o).read p.2 = h.read p.2 := by
  intro p hp
  rcases refreshAux_spec s.cache s h hwf hnd halloc p hp with ⟨r', ha, hlt, hge, hread, hsnap⟩
  refine ⟨r', ha, by omega, hread, hsnap, ?_⟩
  intro o
  rw [Heap.read_write_ne _ _ _ _ (by omega : p.2 ≠ r')]
  exact hsnap

/-- C1 witness: one registered fixture, restored through `setUp`. -/
theorem C1_setUp_restores_fresh_deep_copies_witness :
    (exHeap.wf ∧ (exCls.cache.map Prod.fst).Nodup ∧
      ∀ p ∈ exCls.cache, (exHeap.read p.2).isSome = true) ∧
    ∀ p ∈ exCls.cache, ∃ r',
      alookup ((BaseTestCase.setUp exCls exHeap exTime 5).1.1.attrs) p.1 = some r' ∧
      r' ≠ p.2 ∧
      (BaseTestCase.setUp exCls exHeap exTime 5).1.2.read r' = exHeap.read p.2 ∧
      (BaseTestCase.setUp exCls exHeap exTime 5).1.2.read p.2 = exHeap.read p.2 ∧
      ∀ o, (((BaseTestCase.setUp exCls exHeap exTime 5).1.2).write r' o).read p.2 =
        exHeap.read p.2 :=
  ⟨⟨by decide, by decide, by decide⟩,
    C1_setUp_restores_fresh_deep_copies exCls exHeap exTime 5 (by decide) (by decide) (by decide)⟩

/-- C2 fails on the code: after the wrapped one-time setup runs on an empty
class, the registry entry for `project` holds the very address the class
attribute is bound to (address 0), and the heap still holds exactly the one
object the setup created — the capture step made no copy at all, so the
registry entry is a reference to the live object, not an independent deep
copy taken at capture time. -/
theorem C2_counterexample :
    alookup (wrap_test_data exSetUpTestData ⟨[], []⟩ ⟨0, []⟩).1.cache "project" = some 0 ∧
    alookup (wrap_test_data exSetUpTestData ⟨[], []⟩ ⟨0, []⟩).1.attrs "project" = some 0 ∧
    (wrap_test_data exSetUpTestData ⟨[], []⟩ ⟨0, []⟩).2 = (⟨1, [(0, exObj)]⟩ : Heap) := by
  decide

/-- C2 amended: immediately after the one-time setup routine returns, the
capture step stores, for each added or changed class attribute, the live
value itself — the registry entry is the same reference the class attribute
holds, and no copy is made (the heap is exactly the heap the setup routine
produced).  The independent deep copy is made later, by the per-test
restore. -/
theorem C2_amended_capture_stores_references
    (func : ClsState → Heap → ClsState × Heap) (cls : ClsState) (h : Heap)
    (hnd : ((func cls h).1.attrs.map Prod.fst).Nodup) :
    (wrap_test_data func cls h).2 = (func cls h).2 ∧
    (wrap_test_data func cls h).1.attrs = (func cls h).1.attrs ∧
    ∀ p ∈ (func cls h).1.attrs,
      changedB (func cls h).2 cls.attrs p.1 p.2 = true →
        alookup (wrap_test_data func cls h).1.cache p.1 = some p.2 ∧
        alookup (wrap_test_data func cls h).1.attrs p.1 = some p.2 := by
  refine ⟨rfl, rfl, ?_⟩
  intro p hp hch
  constructor
  · exact capture_mem_changed _ _ _ _ p.1 p.2 hnd (by rw [Prod.mk.eta]; exact hp) hch
  · exact alookup_of_nodup_mem _ _ _ hnd (by rw [Prod.mk.eta]; exact hp)

/-- C2 amended witness: the concrete one-fixture setup. -/
theorem C2_amended_capture_stores_references_witness :
    ((exSetUpTestData ⟨[], []⟩ ⟨0, []⟩).1.attrs.map Prod.fst).Nodup ∧
    ((wrap_test_data exSetUpTestData ⟨[], []⟩ ⟨0, []⟩).2 =
        (exSetUpTestData ⟨[], []⟩ ⟨0, []⟩).2 ∧
      (wrap_test_data exSetUpTestData ⟨[], []⟩ ⟨0, []⟩).1.attrs =
        (exSetUpTestData ⟨[], []⟩ ⟨0, []⟩).1.attrs ∧
      ∀ p ∈ (exSetUpTestData ⟨[], []⟩ ⟨0, []⟩).1.attrs,
        changedB (exSetUpTestData ⟨[], []⟩ ⟨0, []⟩).2 (ClsState.mk [] []).attrs p.1 p.2 = true →
          alookup (wrap_test_data exSetUpTestData ⟨[], []⟩ ⟨0, []⟩).1.cache p.1 = some p.2 ∧
          alookup (wrap_test_data exSetUpTestData ⟨[], []⟩ ⟨0, []⟩).1.attrs p.1 = some p.2) :=
  ⟨by decide, C2_amended_capture_stores_references exSetUpTestData ⟨[], []⟩ ⟨0, []⟩ (by decide)⟩

/-- C5: `clone_object` returns a new object — a deep copy of F at a fresh
address, its persistent identity cleared and then freshly assigned by the
backing-store insertion — with every override applied to the copy and every
non-overridden field equal to F's; the original F is left unmodified both in
memory and in the store. -/
theorem C5_clone_object_independence (h : Heap) (st : Store) (r : Nat) (o : MObj)
    (overrides : List (String × String))
    (hr : h.read r = some o) (hwf : h.wf)
    (hnd : (overrides.map Prod.fst).Nodup)
    (hpk : ∀ i, o.pk = some i → i < st.nextId) :
    (clone_object h st r overrides).2.2 ≠ r ∧
    (clone_object h st r overrides).1.read r = some o ∧
    (∀ i, o.pk = some i → (clone_object h st r overrides).2.1.get i = st.get i) ∧
    ∃ o2,
      (clone_object h st r overrides).1.read (clone_object h st r overrides).2.2 = some o2 ∧
      o2.pk = some st.nextId ∧
      o2.pk ≠ o.pk ∧
      (clone_object h st r overrides).2.1.get st.nextId = some o2 ∧
      o2.typ = o.typ ∧
      (∀ k v, (k, v) ∈ overrides → alookup o2.fields k = some v) ∧
      (∀ k, k ∉ overrides.map Prod.fst → alookup o2.fields k = alookup o.fields k) := by
  have hlt : r < h.next := Heap.read_lt_next h r o hwf hr
  simp only [clone_object, hr, Heap.alloc, Store.insert]
  refine ⟨Nat.ne_of_gt hlt, ?_, ?_,
    ⟨{ o with pk := some st.nextId, fields := asetAll o.fields overrides },
      ?_, rfl, ?_, ?_, rfl, ?_, ?_⟩⟩
  · rw [Heap.read_write_ne _ _ _ _ (Nat.ne_of_lt hlt)]
    show alookup ((h.next, o) :: h.mem) r = some o
    simp only [alookup, Nat.ne_of_gt hlt, if_neg]
    exact hr
  · intro i hi
    show alookup ((st.nextId, _) :: st.recs) i = st.get i
    simp only [alookup, Nat.ne_of_gt (hpk i hi), if_neg]
    rfl
  · exact Heap.read_write_self _ _ _ o (by simp [Heap.read, alookup])
  · intro hc
    cases hop : o.pk with
    | none => rw [hop] at hc; exact Option.noConfusion hc
    | some i =>
        rw [hop] at hc
        have h1 : st.nextId = i := by injection hc
        have h2 := hpk i hop
        omega
  · show alookup ((st.nextId, _) :: st.recs) st.nextId = _
    simp [alookup]
  · intro k v hkv
    exact alookup_asetAll_mem _ _ _ _ hnd hkv
  · intro k hk
    exact alookup_asetAll_notin _ _ _ hk

/-- C5 witness: cloning the concrete fixture with one overridden field. -/
theorem C5_clone_object_independence_witness :
    (exHeap.read 0 = some exObj ∧ exHeap.wf ∧
      ((([("name", "clone")] : List (String × String)).map Prod.fst).Nodup) ∧
      (∀ i, exObj.pk = some i → i < (Store.mk 2 [(1, exObj)]).nextId)) ∧
    ((clone_object exHeap (Store.mk 2 [(1, exObj)]) 0 [("name", "clone")]).2.2 ≠ 0 ∧
      (clone_object exHeap (Store.mk 2 [(1, exObj)]) 0 [("name", "clone")]).1.read 0 =
        some exObj ∧
      (∀ i, exObj.pk = some i →
        (clone_object exHeap (Store.mk 2 [(1, exObj)]) 0 [("name", "clone")]).2.1.get i =
          (Store.mk 2 [(1, exObj)]).get i) ∧
      ∃ o2,
        (clone_object exHeap (Store.mk 2 [(1, exObj)]) 0 [("name", "clone")]).1.read
          (clone_object exHeap (Store.mk 2 [(1, exObj)]) 0 [("name", "clone")]).2.2 = some o2 ∧
        o2.pk = some (Store.mk 2 [(1, exObj)]).nextId ∧
        o2.pk ≠ exObj.pk ∧
        (clone_object exHeap (Store.mk 2 [(1, exObj)]) 0 [("name", "clone")]).2.1.get
          (Store.mk 2 [(1, exObj)]).nextId = some o2 ∧
        o2.typ = exObj.typ ∧
        (∀ k v, (k, v) ∈ ([("name", "clone")] : List (String × String)) →
          alookup o2.fields k = some v) ∧
        (∀ k, k ∉ ([("name", "clone")] : List (String × String)).map Prod.fst →
          alookup o2.fields k = alookup exObj.fields k)) :=
  ⟨⟨by decide, by decide, by decide, by intro i hi; injection hi with hh; subst hh; decide⟩,
    C5_clone_object_independence exHeap (Store.mk 2 [(1, exObj)]) 0 exObj [("name", "clone")]
      (by decide) (by decide) (by decide) (by intro i hi; injection hi with hh; subst hh; decide)⟩

/-- C6: `update_object` writes the given fields only to the backing-store
record identified by F's persistent identity: the heap is returned untouched
(so every in-memory field of F is unchanged and still readable at F's
address), the store record for F's pk has exactly the given fields updated
and all others kept, and every other store record is unchanged. -/
theorem C6_update_object_store_only (h : Heap) (st : Store) (r i : Nat) (o rec : MObj)
    (kwargs : List (String × String))
    (hr : h.read r = some o) (hpk : o.pk = some i) (hrec : st.get i = some rec)
    (hnd : (kwargs.map Prod.fst).Nodup) :
    (update_object h st r [] kwargs).1 = h ∧
    (update_object h st r [] kwargs).1.read r = some o ∧
    (∃ rec2, (update_object h st r [] kwargs).2.get i = some rec2 ∧
      rec2.typ = rec.typ ∧ rec2.pk = rec.pk ∧
      (∀ k v, (k, v) ∈ kwargs → alookup rec2.fields k = some v) ∧
      (∀ k, k ∉ kwargs.map Prod.fst → alookup rec2.fields k = alookup rec.fields k)) ∧
    (∀ j, j ≠ i → (update_object h st r [] kwargs).2.get j = st.get j) := by
  refine ⟨?_, ?_, ⟨{ rec with fields := asetAll rec.fields kwargs }, ?_, rfl, rfl, ?_, ?_⟩, ?_⟩
  · simp [update_object, hr, hpk]
  · simp [update_object, hr, hpk]
  · simp only [update_object, hr, hpk]
    exact Store.get_update_self st i _ rec hrec
  · intro k v hkv
    exact alookup_asetAll_mem _ _ _ _ hnd hkv
  · intro k hk
    exact alookup_asetAll_notin _ _ _ hk
  · intro j hj
    simp only [update_object, hr, hpk]
    exact Store.get_update_ne st i j _ hj

/-- C6 witness: a store-only field update of the concrete fixture. -/
theorem C6_update_object_store_only_witness :
    (exHeap.read 0 = some exObj ∧ exObj.pk = some 1 ∧
      (Store.mk 2 [(1, exObj)]).get 1 = some exObj ∧
      ((([("name", "updated")] : List (String × String)).map Prod.fst).Nodup)) ∧
    ((update_object exHeap (Store.mk 2 [(1, exObj)]) 0 [] [("name", "updated")]).1 = exHeap ∧
      (update_object exHeap (Store.mk 2 [(1, exObj)]) 0 [] [("name", "updated")]).1.read 0 =
        some exObj ∧
      (∃ rec2,
        (update_object exHeap (Store.mk 2 [(1, exObj)]) 0 [] [("name", "updated")]).2.get 1 =
          some rec2 ∧
        rec2.typ = exObj.typ ∧ rec2.pk = exObj.pk ∧
        (∀ k v, (k, v) ∈ ([("name", "updated")] : List (String × String)) →
          alookup rec2.fields k = some v) ∧
        (∀ k, k ∉ ([("name", "updated")] : List (String × String)).map Prod.fst →
          alookup rec2.fields k = alookup exObj.fields k)) ∧
      (∀ j, j ≠ 1 →
        (update_object exHeap (Store.mk 2 [(1, exObj)]) 0 [] [("name", "updated")]).2.get j =
          (Store.mk 2 [(1, exObj)]).get j)) :=
  ⟨⟨by decide, by decide, by decide, by decide⟩,
    C6_update_object_store_only exHeap (Store.mk 2 [(1, exObj)]) 0 1 exObj exObj
      [("name", "updated")] (by decide) (by decide) (by decide) (by decide)⟩

/-- The matching rule as the specification words it for `forget`: match by
type and persistent identity, where persistent identity is the backing-store
id if the object has one, else reference identity.  Stated from the spec's
words, to be compared with the code's matching rule. -/
def specForgetMatch (h : Heap) (rv robj : Nat) : Bool :=
  match h.read rv, h.read robj with
  | some v, some obj =>
      v.typ == obj.typ &&
        (match obj.pk with
         | some i => v.pk == some i
         | none => rv == robj)
  | _, _ => false

/-- C7 fails on the code: in a heap with two distinct unsaved objects of the
same model class (addresses 0 and 1, both `pk = None`), the registry's only
entry holds address 0, and the spec's matching rule rejects address 1 (no
backing-store id and a different reference) — yet `forget_object` called
with address 1 removes the entry, because the code compares `v.pk == obj.pk`
and `None == None` is `True`. -/
theorem C7_counterexample :
    specForgetMatch ⟨2, [(0, ⟨"T", none, []⟩), (1, ⟨"T", none, []⟩)]⟩ 0 1 = false ∧
    (forget_object ⟨2, [(0, ⟨"T", none, []⟩), (1, ⟨"T", none, []⟩)]⟩
      ⟨[("a", 0)], [("a", 0)]⟩ 1).1.cache = [] := by
  decide

/-- C7 amended: `forget_object` removes exactly the first fixture-registry
entry whose value matches the given object by type and pk equality — where
two objects both lacking a backing-store id count as having equal (`None`)
pks, so reference identity is not required; when no entry matches, the call
is a no-op raising no error; and once an entry is removed, no later sequence
of restores and forgets ever brings the key back or rebinds its attribute. -/
theorem C7_forget_object_amended (h : Heap) (s : ClsState) (objRef : Nat) (obj : MObj)
    (hobj : h.read objRef = some obj) :
    ((∀ p ∈ s.cache, ∀ v, h.read p.2 = some v → ¬(v.typ = obj.typ ∧ v.pk = obj.pk)) →
      (forget_object h s objRef).1 = s) ∧
    (∀ k, findForgetKey h obj s.cache = some k →
      (∃ r v, (k, r) ∈ s.cache ∧ h.read r = some v ∧ v.typ = obj.typ ∧ v.pk = obj.pk) ∧
      (forget_object h s objRef).1.cache = adel s.cache k ∧
      (forget_object h s objRef).1.attrs = s.attrs) ∧
    (∀ ops k, k ∉ ((forget_object h s objRef).1.cache.map Prod.fst) →
      k ∉ ((runOps ((forget_object h s objRef).1, h) ops).1.cache.map Prod.fst) ∧
      alookup (runOps ((forget_object h s objRef).1, h) ops).1.attrs k =
        alookup (forget_object h s objRef).1.attrs k) := by
  refine ⟨?_, ?_, ?_⟩
  · intro hno
    simp only [forget_object, hobj, findForgetKey_none h obj s.cache hno]
  · intro k hk
    refine ⟨findForgetKey_some h obj s.cache k hk, ?_, ?_⟩
    · simp only [forget_object, hobj, hk]
    · exact forget_object_attrs h s objRef
  · intro ops k hk
    exact runOps_forgotten ops _ k hk

/-- C7 amended witness: forgetting the concrete saved fixture. -/
theorem C7_forget_object_amended_witness :
    exHeap.read 0 = some exObj ∧
    ((∀ p ∈ exCls.cache, ∀ v, exHeap.read p.2 = some v →
        ¬(v.typ = exObj.typ ∧ v.pk = exObj.pk)) →
      (forget_object exHeap exCls 0).1 = exCls) ∧
    (∀ k, findForgetKey exHeap exObj exCls.cache = some k →
      (∃ r v, (k, r) ∈ exCls.cache ∧ exHeap.read r = some v ∧
        v.typ = exObj.typ ∧ v.pk = exObj.pk) ∧
      (forget_object exHeap exCls 0).1.cache = adel exCls.cache k ∧
      (forget_object exHeap exCls 0).1.attrs = exCls.attrs) ∧
    (∀ ops k, k ∉ ((forget_object exHeap exCls 0).1.cache.map Prod.fst) →
      k ∉ ((runOps ((forget_object exHeap exCls 0).1, exHeap) ops).1.cache.map Prod.fst) ∧
      alookup (runOps ((forget_object exHeap exCls 0).1, exHeap) ops).1.attrs k =
        alookup (forget_object exHeap exCls 0).1.attrs k) :=
  ⟨by decide, C7_forget_object_amended exHeap exCls 0 exObj (by decide)⟩

/-- C8 fails on the code: on a call that finds and removes a matching
registry entry (the key `project`), the function's return value is `None`,
not the removed key — `forget_object` has no `return` statement, so the
caller never learns which key was removed. -/
theorem C8_counterexample :
    (forget_object exHeap exCls 0).1.cache = [] ∧
    (forget_object exHeap exCls 0).2 = none ∧
    ¬((forget_object exHeap exCls 0).2 = some "project") := by
  decide

/-- C8 amended: `forget_object` computes which registry key to remove but
returns `None` on every path — whether an entry was removed or nothing
matched — so no removed-key diagnostic is available to the caller. -/
theorem C8_amended_forget_returns_none (h : Heap) (s : ClsState) (objRef : Nat) :
    (forget_object h s objRef).2 = none := by
  unfold forget_object
  cases h.read objRef with
  | none => rfl
  | some obj => rfl

/-- C9 fails on the code: a `setUpTestData` already wrapped by the metaclass
(one wrapper layer, marker on the `classmethod` object, none on the
function) is wrapped a second time when a subclass inherits it, because
`getattr(base, 'setUpTestData')` returns a bound method, attribute reads on
a bound method go to the underlying function, and the marker sits on the
`classmethod` object — so `hasattr(setup, RECORDS_OBJECTS)` is false and the
metaclass wraps again. -/
theorem C9_counterexample :
    visibleMark (.inherited ⟨1, true, false⟩) = false ∧
    metaclass_setup (.inherited ⟨1, true, false⟩) = some ⟨2, true, false⟩ := by
  decide

/-- C9 amended: the metaclass skips re-wrapping exactly when the marker is
visible on the retrieved setup — which holds for a class defining (in its
own body) a previously marked classmethod, but not for a wrapped setup
inherited from a base class, which is wrapped again; nevertheless capture
stays single-entry, because running the doubly-wrapped setup produces
exactly the same class state and registry as running the singly-wrapped one
(the registry is a key-value map and the nested wrapper rewrites identical
entries). -/
theorem C9_amended_no_double_capture (m : SetupMethod)
    (func : ClsState → Heap → ClsState × Heap) (cls : ClsState) (h : Heap)
    (hnd : ((func cls h).1.attrs.map Prod.fst).Nodup) :
    (visibleMark (.ownAttr m) = true → metaclass_setup (.ownAttr m) = some m) ∧
    (m.fnMark = false →
      metaclass_setup (.inherited m) = some ⟨m.wrapDepth + 1, true, false⟩) ∧
    wrap_test_data (wrap_test_data func) cls h = wrap_test_data func cls h := by
  refine ⟨?_, ?_, ?_⟩
  · intro hv
    simp [metaclass_setup, hv]
  · intro hf
    simp [metaclass_setup, visibleMark, hf, wrapSetupMethod]
  · show (⟨(func cls h).1.attrs,
        capture (func cls h).2 cls.attrs (func cls h).1.attrs
          (capture (func cls h).2 cls.attrs (func cls h).1.attrs (func cls h).1.cache)⟩,
        (func cls h).2) =
      ((⟨(func cls h).1.attrs,
        capture (func cls h).2 cls.attrs (func cls h).1.attrs (func cls h).1.cache⟩,
        (func cls h).2) : ClsState × Heap)
    rw [capture_idem _ _ _ _ hnd]

/-- C9 amended witness: the once-wrapped inherited shape and the concrete
one-fixture setup body. -/
theorem C9_amended_no_double_capture_witness :
    ((exSetUpTestData ⟨[], []⟩ ⟨0, []⟩).1.attrs.map Prod.fst).Nodup ∧
    ((visibleMark (.ownAttr ⟨1, true, false⟩) = true →
        metaclass_setup (.ownAttr ⟨1, true, false⟩) = some ⟨1, true, false⟩) ∧
      ((⟨1, true, false⟩ : SetupMethod).fnMark = false →
        metaclass_setup (.inherited ⟨1, true, false⟩) = some ⟨1 + 1, true, false⟩) ∧
      wrap_test_data (wrap_test_data exSetUpTestData) ⟨[], []⟩ ⟨0, []⟩ =
        wrap_test_data exSetUpTestData ⟨[], []⟩ ⟨0, []⟩) :=
  ⟨by decide,
    C9_amended_no_double_capture ⟨1, true, false⟩ exSetUpTestData ⟨[], []⟩ ⟨0, []⟩ (by decide)⟩

end DjangoTestingUtils
